import Mathlib

/-!
Verification of the OBS Lite byte-stream decoders.

Shallow embedding of the decoding core of the two diagnostic scripts
(tools/read_ble.py and tools/read_esp.py).  Bytes are modelled as natural
numbers and byte strings as lists; every while-loop of the source becomes a
structurally recursive Lean function over an explicit fuel argument.  For
every loop the read position strictly increases by at least one per
iteration, so fuel equal to the buffer length (plus one) makes the fuel
branch unreachable and the Lean function agrees with the Python loop; the
fuel-stabilisation theorems proved below make this argument formal.

The IEEE-754 single-precision distance value produced by
struct.unpack with a little-endian float format is modelled by its 32-bit
little-endian bit pattern together with the exact rational interpretation
f32val; the only operations the scripts perform on the float are equality
with 0.0 (true exactly for the two zero bit patterns, captured by
f32IsZero) and display.
-/

/-- decode_varint (identical in read_ble.py and read_esp.py): base-128
varint decoding loop.  One fuel unit per loop iteration; each iteration
consumes exactly one byte, so fuel = data.length - pos makes the fuel
branch coincide with the loop condition pos < len(data). -/
def decodeVarintAux : Nat → List Nat → Nat → Nat → Nat → Nat × Nat
  | 0, _, pos, result, _ => (result, pos)
  | fuel+1, data, pos, result, shift =>
    if pos < data.length then
      let b := data.getD pos 0
      let result2 := result ||| ((b &&& 127) <<< shift)
      if b &&& 128 = 0 then
        (result2, pos + 1)
      else
        decodeVarintAux fuel data (pos + 1) result2 (shift + 7)
    else
      (result, pos)

/-- decode_varint(data, pos): returns (value, new position). -/
def decode_varint (data : List Nat) (pos : Nat) : Nat × Nat :=
  decodeVarintAux (data.length - pos) data pos 0 0

/-- Standard base-128 varint encoding of an unsigned integer (low 7-bit
group first, continuation bit 0x80 on every byte except the last). -/
def varintEncode (v : Nat) : List Nat :=
  if h : v < 128 then [v]
  else (v % 128 + 128) :: varintEncode (v / 128)
termination_by v
decreasing_by exact Nat.div_lt_self (by omega) (by omega)

/-- Decoded DistanceMeasurement record: source_id, the 32-bit pattern of
the distance float, and the has_distance presence flag. -/
structure DM where
  source_id : Nat
  distanceBits : Nat
  has_distance : Bool
deriving DecidableEq, Repr

/-- The 32-bit little-endian word starting at pos, as read by
struct.unpack of four bytes with a little-endian float format. -/
def le32 (data : List Nat) (pos : Nat) : Nat :=
  data.getD pos 0 + 256 * data.getD (pos+1) 0 +
    65536 * data.getD (pos+2) 0 + 16777216 * data.getD (pos+3) 0

/-- Field loop of parse_distance_measurement (identical in both scripts).
Field 1 with wire type 0 sets source_id; field 2 with wire type 5 reads a
little-endian fixed32 when four bytes remain (otherwise the loop continues
at the same position, exactly as in the source, whose guarded if has no
else); other fields are skipped by wire type; wire types 3, 4, 6, 7 end
the loop. -/
def parseDMAux : Nat → List Nat → Nat → DM → DM
  | 0, _, _, st => st
  | fuel+1, data, pos, st =>
    if pos < data.length then
      let tag := (decode_varint data pos).1
      let pos1 := (decode_varint data pos).2
      let fn := tag >>> 3
      let wt := tag &&& 7
      if fn = 1 ∧ wt = 0 then
        parseDMAux fuel data (decode_varint data pos1).2
          { st with source_id := (decode_varint data pos1).1 }
      else if fn = 2 ∧ wt = 5 then
        if pos1 + 4 ≤ data.length then
          parseDMAux fuel data (pos1 + 4)
            { st with distanceBits := le32 data pos1, has_distance := true }
        else
          parseDMAux fuel data pos1 st
      else if wt = 0 then
        parseDMAux fuel data (decode_varint data pos1).2 st
      else if wt = 1 then
        parseDMAux fuel data (pos1 + 8) st
      else if wt = 2 then
        parseDMAux fuel data ((decode_varint data pos1).2 + (decode_varint data pos1).1) st
      else if wt = 5 then
        parseDMAux fuel data (pos1 + 4) st
      else
        st
    else
      st

/-- parse_distance_measurement(data): source_id defaults to 0, distance to
0.0 (bit pattern 0), has_distance to False. -/
def parse_distance_measurement (data : List Nat) : DM :=
  parseDMAux (data.length + 1) data 0 ⟨0, 0, false⟩

/-- The sequence of (field_number, wire_type) pairs read by the
parse_distance_measurement loop, with exactly the position transitions of
parseDMAux.  Used to state that a given field never appears in a
submessage. -/
def dmTags : Nat → List Nat → Nat → List (Nat × Nat)
  | 0, _, _ => []
  | fuel+1, data, pos =>
    if pos < data.length then
      let tag := (decode_varint data pos).1
      let pos1 := (decode_varint data pos).2
      let fn := tag >>> 3
      let wt := tag &&& 7
      if fn = 1 ∧ wt = 0 then
        (fn, wt) :: dmTags fuel data (decode_varint data pos1).2
      else if fn = 2 ∧ wt = 5 then
        if pos1 + 4 ≤ data.length then
          (fn, wt) :: dmTags fuel data (pos1 + 4)
        else
          (fn, wt) :: dmTags fuel data pos1
      else if wt = 0 then
        (fn, wt) :: dmTags fuel data (decode_varint data pos1).2
      else if wt = 1 then
        (fn, wt) :: dmTags fuel data (pos1 + 8)
      else if wt = 2 then
        (fn, wt) :: dmTags fuel data ((decode_varint data pos1).2 + (decode_varint data pos1).1)
      else if wt = 5 then
        (fn, wt) :: dmTags fuel data (pos1 + 4)
      else
        [(fn, wt)]
    else
      []

/-- Exact rational value of an IEEE-754 single-precision bit pattern
(none for the exponent-255 NaN and infinity patterns). -/
def f32val (w : Nat) : Option ℚ :=
  let s : Nat := w / 2^31 % 2
  let e : Nat := w / 2^23 % 256
  let m : Nat := w % 2^23
  if e = 255 then none
  else
    let mag : ℚ :=
      if e = 0 then (m : ℚ) / (2^23 * 2^126)
      else (((2^23 + m : Nat) : ℚ) / 2^23) *
        (if 127 ≤ e then (2:ℚ)^(e - 127) else 1 / (2:ℚ)^(127 - e))
    some ((if s = 1 then -1 else 1) * mag)

/-- Whether an IEEE-754 single-precision bit pattern compares equal to 0.0
(exactly the patterns of +0.0 and -0.0). -/
def f32IsZero (w : Nat) : Bool := w &&& 0x7FFFFFFF == 0

/-- Distance classification of read_ble.py handle_notification. -/
inductive DistClass where
  | OK : DistClass
  | ZERO_NO_FIELD : DistClass
  | ZERO_EXPLICIT : DistClass
deriving DecidableEq, Repr

/-- Classification branches of read_ble.py handle_notification for a
decoded distance record: ZERO_NO_FIELD when distance == 0.0 and the
distance field was absent, ZERO_EXPLICIT when distance == 0.0 with the
field present, OK otherwise. -/
def classify_distance (distanceBits : Nat) (has_distance : Bool) : DistClass :=
  if f32IsZero distanceBits ∧ has_distance = false then .ZERO_NO_FIELD
  else if f32IsZero distanceBits then .ZERO_EXPLICIT
  else .OK

/-- Event type labels produced by parse_event (the Python strings
"TRUNCATED" etc.; f-strings field_N become field_unknown N). -/
inductive EvType where
  | TRUNCATED : EvType
  | distance : EvType
  | geolocation : EvType
  | userInput : EvType
  | textMessage : EvType
  | field_unknown : Nat → EvType
deriving DecidableEq, Repr

/-- Details dictionaries produced by read_ble.py parse_event. -/
inductive EvDetails where
  | truncInfo (field expected available : Nat) (raw_hex : List Nat) : EvDetails
  | distInfo (source_id distanceBits : Nat) (has_distance : Bool)
      (raw_hex : List Nat) (dm_bytes : Nat) : EvDetails
  | textInfo (raw : List Nat) : EvDetails
deriving DecidableEq, Repr

/-- Field loop of read_ble.py parse_event.  For a length-delimited field
it first decodes the length varint and, when pos + length exceeds the
buffer length, returns the TRUNCATED event immediately with the field
number, expected length, available byte count and whole frame; otherwise
it dispatches on the field number, recognised fields overwriting
event_type, the unknown-field label being set only when event_type is
still None. -/
def parseEventAux : Nat → List Nat → Nat → Option EvType → Option EvDetails →
    Option EvType × Option EvDetails
  | 0, _, _, et, dt => (et, dt)
  | fuel+1, data, pos, et, dt =>
    if pos < data.length then
      let tag := (decode_varint data pos).1
      let pos1 := (decode_varint data pos).2
      let fn := tag >>> 3
      let wt := tag &&& 7
      if wt = 2 then
        let len2 := (decode_varint data pos1).1
        let pos2 := (decode_varint data pos1).2
        if data.length < pos2 + len2 then
          (some .TRUNCATED, some (.truncInfo fn len2 (data.length - pos2) data))
        else
          let field_data := (data.drop pos2).take len2
          let pos3 := pos2 + len2
          if fn = 10 then
            let dm := parse_distance_measurement field_data
            parseEventAux fuel data pos3 (some .distance)
              (some (.distInfo dm.source_id dm.distanceBits dm.has_distance
                field_data field_data.length))
          else if fn = 12 then
            parseEventAux fuel data pos3 (some .geolocation) dt
          else if fn = 13 then
            parseEventAux fuel data pos3 (some .userInput) dt
          else if fn = 14 then
            parseEventAux fuel data pos3 (some .textMessage) (some (.textInfo field_data))
          else if fn = 6 then
            parseEventAux fuel data pos3 et dt
          else if et = none then
            parseEventAux fuel data pos3 (some (.field_unknown fn)) dt
          else
            parseEventAux fuel data pos3 et dt
      else if wt = 0 then
        parseEventAux fuel data (decode_varint data pos1).2 et dt
      else if wt = 1 then
        parseEventAux fuel data (pos1 + 8) et dt
      else if wt = 5 then
        parseEventAux fuel data (pos1 + 4) et dt
      else
        (et, dt)
    else
      (et, dt)

/-- read_ble.py parse_event(data): event_type and details start as None. -/
def parse_event (data : List Nat) : Option EvType × Option EvDetails :=
  parseEventAux (data.length + 1) data 0 none none

/-- Details dictionaries produced by read_esp.py parse_event (its distance
details carry no dm_bytes entry). -/
inductive EvDetailsE where
  | distInfoE (source_id distanceBits : Nat) (has_distance : Bool)
      (raw_hex : List Nat) : EvDetailsE
  | textInfoE (raw : List Nat) : EvDetailsE
deriving DecidableEq, Repr

/-- Field loop of read_esp.py parse_event.  Identical dispatch, but with
no truncation check: the slice data[pos:pos+length] silently clamps to the
end of the buffer and the loop continues. -/
def parseEventEspAux : Nat → List Nat → Nat → Option EvType → Option EvDetailsE →
    Option EvType × Option EvDetailsE
  | 0, _, _, et, dt => (et, dt)
  | fuel+1, data, pos, et, dt =>
    if pos < data.length then
      let tag := (decode_varint data pos).1
      let pos1 := (decode_varint data pos).2
      let fn := tag >>> 3
      let wt := tag &&& 7
      if wt = 2 then
        let len2 := (decode_varint data pos1).1
        let pos2 := (decode_varint data pos1).2
        let field_data := (data.drop pos2).take len2
        let pos3 := pos2 + len2
        if fn = 10 then
          let dm := parse_distance_measurement field_data
          parseEventEspAux fuel data pos3 (some .distance)
            (some (.distInfoE dm.source_id dm.distanceBits dm.has_distance field_data))
        else if fn = 12 then
          parseEventEspAux fuel data pos3 (some .geolocation) dt
        else if fn = 13 then
          parseEventEspAux fuel data pos3 (some .userInput) dt
        else if fn = 14 then
          parseEventEspAux fuel data pos3 (some .textMessage) (some (.textInfoE field_data))
        else if fn = 6 then
          parseEventEspAux fuel data pos3 et dt
        else if et = none then
          parseEventEspAux fuel data pos3 (some (.field_unknown fn)) dt
        else
          parseEventEspAux fuel data pos3 et dt
      else if wt = 0 then
        parseEventEspAux fuel data (decode_varint data pos1).2 et dt
      else if wt = 1 then
        parseEventEspAux fuel data (pos1 + 8) et dt
      else if wt = 5 then
        parseEventEspAux fuel data (pos1 + 4) et dt
      else
        (et, dt)
    else
      (et, dt)

/-- read_esp.py parse_event(data). -/
def parse_event_esp (data : List Nat) : Option EvType × Option EvDetailsE :=
  parseEventEspAux (data.length + 1) data 0 none none

/-- Literal-copy inner loop of cobs_decode: append k bytes starting at i,
returning none when the input is exhausted mid-copy (the early return None
of the source). -/
def copyLiterals (data : List Nat) (i k : Nat) (out : List Nat) :
    Option (Nat × List Nat) :=
  match k with
  | 0 => some (i, out)
  | k+1 =>
    if i < data.length then
      copyLiterals data (i+1) k (out ++ [data.getD i 0])
    else
      none

/-- Outer while-loop of read_esp.py cobs_decode.  Each iteration reads a
code byte (a zero code stops the loop), copies code-1 literal bytes, and
appends a reconstructed zero when the code is below 0xFF and input
remains.  One fuel unit per iteration; each iteration consumes at least
one input byte. -/
def cobsDecodeAux : Nat → List Nat → Nat → List Nat → Option (List Nat)
  | 0, _, _, out => some out
  | fuel+1, data, i, out =>
    if i < data.length then
      let code := data.getD i 0
      if code = 0 then some out
      else
        match copyLiterals data (i+1) (code - 1) out with
        | none => none
        | some (i2, out2) =>
          if code < 255 ∧ i2 < data.length then
            cobsDecodeAux fuel data i2 (out2 ++ [0])
          else
            cobsDecodeAux fuel data i2 out2
    else
      some out

/-- read_esp.py cobs_decode(data): run the loop, then strip one trailing
zero byte from the output if present. -/
def cobs_decode (data : List Nat) : Option (List Nat) :=
  match cobsDecodeAux data.length data 0 [] with
  | none => none
  | some out => some (if out.getLast? = some 0 then out.dropLast else out)

/-- Modelled from the spec: the standard COBS encoding (delimiter 0x00,
maximum code 0xFF), which the repository does not contain (the scripts
only decode).  block is the pending run of bytes not yet emitted; a zero
byte or the end of input emits the run with code length+1; a run reaching
254 bytes is emitted with code 0xFF. -/
def cobsEncGo : List Nat → List Nat → List Nat
  | block, [] => (block.length + 1) :: block
  | block, b :: rest =>
    if b = 0 then
      ((block.length + 1) :: block) ++ cobsEncGo [] rest
    else if block.length = 253 then
      (255 :: (block ++ [b])) ++ (if rest = [] then [] else cobsEncGo [] rest)
    else
      cobsEncGo (block ++ [b]) rest

/-- Modelled from the spec: standard COBS encoding of a payload. -/
def cobsEncode (p : List Nat) : List Nat := cobsEncGo [] p

/-- Per-frame pipeline of read_esp.py main: an empty frame is skipped
before COBS decoding; a COBS decode error is reported and skipped; an
intact frame is parsed into exactly one event. -/
def processFrame (frame : List Nat) : Option (Option EvType × Option EvDetailsE) :=
  if frame = [] then none
  else
    match cobs_decode frame with
    | none => none
    | some d => some (parse_event_esp d)

/-- Deframing while-loop of read_esp.py main: while a zero byte is in the
buffer, split off the frame before the first zero, drop the delimiter,
and process the frame; returns the events produced and the leftover
buffer.  One fuel unit per extracted frame. -/
def deframeEvents : Nat → List Nat → List (Option EvType × Option EvDetailsE) × List Nat
  | 0, buf => ([], buf)
  | fuel+1, buf =>
    if 0 ∈ buf then
      let idx := buf.indexOf 0
      let frame := buf.take idx
      let rest := deframeEvents fuel (buf.drop (idx + 1))
      ((match processFrame frame with
        | none => rest.1
        | some e => e :: rest.1), rest.2)
    else
      ([], buf)

/-- deframeEvents with enough fuel for every frame of the buffer. -/
def deframe_loop (buf : List Nat) : List (Option EvType × Option EvDetailsE) × List Nat :=
  deframeEvents buf.length buf

/-- One observed iteration of the read_ble.py parse_event loop: either a
(field_number, wire_type) pair that was dispatched or skipped, or the
field number at which the truncation early-return fired. -/
inductive EvStep where
  | field (fn wt : Nat) : EvStep
  | truncated (fn : Nat) : EvStep
deriving DecidableEq, Repr

/-- The sequence of steps taken by the read_ble.py parse_event loop, with
exactly the position transitions of parseEventAux.  Used to state that a
span of the frame contains no recognized field and no truncation. -/
def evTrace : Nat → List Nat → Nat → List EvStep
  | 0, _, _ => []
  | fuel+1, data, pos =>
    if pos < data.length then
      let tag := (decode_varint data pos).1
      let pos1 := (decode_varint data pos).2
      let fn := tag >>> 3
      let wt := tag &&& 7
      if wt = 2 then
        if data.length < (decode_varint data pos1).2 + (decode_varint data pos1).1 then
          [.truncated fn]
        else
          .field fn wt :: evTrace fuel data
            ((decode_varint data pos1).2 + (decode_varint data pos1).1)
      else if wt = 0 then
        .field fn wt :: evTrace fuel data (decode_varint data pos1).2
      else if wt = 1 then
        .field fn wt :: evTrace fuel data (pos1 + 8)
      else if wt = 5 then
        .field fn wt :: evTrace fuel data (pos1 + 4)
      else
        [.field fn wt]
    else
      []

/-- Whether one loop step can change an already-set event_type: only a
recognized length-delimited field (10, 12, 13, 14 with wire type 2) or
the truncation early-return can; every other step leaves it alone. -/
def stepPreserves : EvStep → Bool
  | .field fn wt => !(wt == 2 && (fn == 10 || fn == 12 || fn == 13 || fn == 14))
  | .truncated _ => false

/-! ## Basic lemmas about the varint decoder -/

lemma getD_append_cons (pre : List Nat) (b : Nat) (l : List Nat) :
    (pre ++ b :: l).getD pre.length 0 = b := by
  induction pre with
  | nil => rfl
  | cons a t ih => simpa using ih

lemma decodeVarintAux_le (fuel : Nat) : ∀ (data : List Nat) (pos r s : Nat),
    pos ≤ (decodeVarintAux fuel data pos r s).2 := by
  induction fuel with
  | zero => intro data pos r s; exact le_refl pos
  | succ f ih =>
    intro data pos r s
    simp only [decodeVarintAux]
    split_ifs with h1 h2
    · exact Nat.le_succ pos
    · exact le_trans (Nat.le_succ pos) (ih data (pos+1) _ _)
    · exact le_refl pos

lemma decode_varint_le (data : List Nat) (pos : Nat) :
    pos ≤ (decode_varint data pos).2 :=
  decodeVarintAux_le _ _ _ _ _

lemma decode_varint_lt (data : List Nat) (pos : Nat) (h : pos < data.length) :
    pos < (decode_varint data pos).2 := by
  unfold decode_varint
  have hf : data.length - pos = (data.length - pos - 1) + 1 := by omega
  rw [hf]
  simp only [decodeVarintAux]
  rw [if_pos h]
  split_ifs with h2
  · exact Nat.lt_succ_self pos
  · exact lt_of_lt_of_le (Nat.lt_succ_self pos) (decodeVarintAux_le _ _ _ _ _)

lemma testBit_div_pow (n k i : Nat) :
    Nat.testBit (n / 2^k) i = Nat.testBit n (k + i) := by
  rw [Nat.testBit_to_div_mod, Nat.testBit_to_div_mod, Nat.div_div_eq_div_mul, ← pow_add]

lemma or_shift_merge (v s : Nat) :
    ((v % 128) <<< s) ||| ((v / 128) <<< (s + 7)) = v <<< s := by
  apply Nat.eq_of_testBit_eq
  intro i
  have h128 : (128 : Nat) = 2^7 := rfl
  simp only [Nat.testBit_or, Nat.testBit_shiftLeft, h128, Nat.testBit_mod_two_pow,
    testBit_div_pow]
  by_cases hsi : s ≤ i
  · by_cases h7 : i - s < 7
    · have h1 : ¬ (s + 7 ≤ i) := by omega
      simp [hsi, h7, h1]
    · have h1 : s + 7 ≤ i := by omega
      have h2 : 7 + (i - (s + 7)) = i - s := by omega
      simp [hsi, h7, h1, h2]
  · have h1 : ¬ (s + 7 ≤ i) := by omega
    simp [hsi, h1]

lemma decodeVarintAux_encode (v : Nat) : ∀ (pre : List Nat) (r s fuel : Nat),
    (varintEncode v).length ≤ fuel →
    decodeVarintAux fuel (pre ++ varintEncode v) pre.length r s =
      (r ||| (v <<< s), pre.length + (varintEncode v).length) := by
  induction v using Nat.strong_induction_on with
  | _ v ih =>
    intro pre r s fuel hfuel
    by_cases hv : v < 128
    · rw [varintEncode] at hfuel ⊢
      rw [dif_pos hv] at hfuel ⊢
      obtain ⟨f, rfl⟩ : ∃ f, fuel = f + 1 := ⟨fuel - 1, by simp at hfuel; omega⟩
      simp only [decodeVarintAux]
      rw [if_pos (by simp)]
      have hb : (pre ++ [v]).getD pre.length 0 = v := getD_append_cons pre v []
      have hbit : v &&& 128 = 0 := by
        rw [show (128 : Nat) = 2^7 from rfl, Nat.and_two_pow,
          Nat.testBit_lt_two_pow hv]
        rfl
      rw [hb] at *
      rw [if_pos hbit]
      have h127 : v &&& 127 = v := by
        rw [show (127 : Nat) = 2^7 - 1 from rfl, Nat.and_pow_two_sub_one_eq_mod,
          Nat.mod_eq_of_lt hv]
      rw [h127]
      simp
    · rw [varintEncode] at hfuel ⊢
      rw [dif_neg hv] at hfuel ⊢
      obtain ⟨f, rfl⟩ : ∃ f, fuel = f + 1 := ⟨fuel - 1, by simp at hfuel; omega⟩
      simp only [decodeVarintAux]
      rw [if_pos (by simp)]
      have hb : (pre ++ (v % 128 + 128) :: varintEncode (v / 128)).getD pre.length 0
          = v % 128 + 128 := getD_append_cons pre _ _
      rw [hb]
      have hmod : v % 128 < 128 := Nat.mod_lt v (by omega)
      have hbit : ¬ ((v % 128 + 128) &&& 128 = 0) := by
        have hd : (v % 2^7 + 2^7) / 2^7 % 2 = 1 := by
          have h2 : (2:Nat)^7 = 128 := rfl
          rw [h2]
          omega
        rw [show (128 : Nat) = 2^7 from rfl, Nat.and_two_pow,
          Nat.testBit_to_div_mod, hd]
        simp
      rw [if_neg hbit]
      have h127 : (v % 128 + 128) &&& 127 = v % 128 := by
        rw [show (127 : Nat) = 2^7 - 1 from rfl, Nat.and_pow_two_sub_one_eq_mod]
        have h2 : (2:Nat)^7 = 128 := rfl
        rw [h2]
        omega
      rw [h127]
      have hassoc : pre ++ (v % 128 + 128) :: varintEncode (v / 128)
          = (pre ++ [v % 128 + 128]) ++ varintEncode (v / 128) := by simp
      have hlen : pre.length + 1 = (pre ++ [v % 128 + 128]).length := by simp
      rw [hassoc, hlen]
      rw [ih (v / 128) (Nat.div_lt_self (by omega) (by omega)) _ _ _ f
        (by simp at hfuel; omega)]
      have h1 : (r ||| ((v % 128) <<< s)) ||| ((v / 128) <<< (s + 7)) = r ||| (v <<< s) := by
        rw [Nat.or_assoc, or_shift_merge]
      rw [h1]
      simp
      omega

/-- Claim C5: for every unsigned integer, decoding the standard base-128
varint encoding starting at position 0 returns the value together with a
new position equal to the byte length of the encoding. -/
theorem varint_roundtrip (v : Nat) :
    decode_varint (varintEncode v) 0 = (v, (varintEncode v).length) := by
  have h := decodeVarintAux_encode v [] 0 0 (varintEncode v).length le_rfl
  simp only [List.nil_append, List.length_nil] at h
  unfold decode_varint
  rw [Nat.sub_zero, h, Nat.zero_or, Nat.shiftLeft_zero]
  simp

/-! ## Lemmas about the DistanceMeasurement field loop -/

lemma parseDMAux_no_room (fuel : Nat) : ∀ (data : List Nat) (pos : Nat) (st : DM),
    data.length < pos + 4 →
    ∃ sid, parseDMAux fuel data pos st = ⟨sid, st.distanceBits, st.has_distance⟩ := by
  induction fuel with
  | zero => intro data pos st _; exact ⟨st.source_id, rfl⟩
  | succ f ih =>
    intro data pos st h
    by_cases hp : pos < data.length
    · have hlt := decode_varint_lt data pos hp
      have hle2 := decode_varint_le data (decode_varint data pos).2
      simp only [parseDMAux]
      rw [if_pos hp]
      split_ifs with h1 h2 h3 h4 h5 h6 h7
      · exact ih data _ _ (by omega)
      · exact absurd h3 (by omega)
      · exact ih data _ _ (by omega)
      · exact ih data _ _ (by omega)
      · exact ih data _ _ (by omega)
      · exact ih data _ _ (by omega)
      · exact ih data _ _ (by omega)
      · exact ⟨st.source_id, rfl⟩
    · simp only [parseDMAux]
      rw [if_neg hp]
      exact ⟨st.source_id, rfl⟩

lemma parseDMAux_fuel_free (f1 : Nat) : ∀ (f2 : Nat) (data : List Nat) (pos : Nat) (st : DM),
    data.length ≤ pos + f1 → data.length ≤ pos + f2 →
    parseDMAux f1 data pos st = parseDMAux f2 data pos st := by
  induction f1 with
  | zero =>
    intro f2 data pos st h1 h2
    cases f2 with
    | zero => rfl
    | succ g2 =>
      simp only [parseDMAux]
      rw [if_neg (by omega)]
  | succ g1 ih =>
    intro f2 data pos st h1 h2
    cases f2 with
    | zero =>
      simp only [parseDMAux]
      rw [if_neg (by omega)]
    | succ g2 =>
      by_cases hp : pos < data.length
      · have hlt := decode_varint_lt data pos hp
        have hle2 := decode_varint_le data (decode_varint data pos).2
        simp only [parseDMAux]
        rw [if_pos hp, if_pos hp]
        split_ifs with hc1 hc2 hc3 hc4 hc5 hc6 hc7
        · exact ih g2 data _ _ (by omega) (by omega)
        · exact ih g2 data _ _ (by omega) (by omega)
        · exact ih g2 data _ _ (by omega) (by omega)
        · exact ih g2 data _ _ (by omega) (by omega)
        · exact ih g2 data _ _ (by omega) (by omega)
        · exact ih g2 data _ _ (by omega) (by omega)
        · exact ih g2 data _ _ (by omega) (by omega)
        · rfl
      · simp only [parseDMAux]
        rw [if_neg hp, if_neg hp]

lemma parseDMAux_fuel (fuel : Nat) (data : List Nat) (pos : Nat) (st : DM)
    (h : data.length ≤ pos + fuel) :
    parseDMAux (fuel+1) data pos st = parseDMAux fuel data pos st :=
  parseDMAux_fuel_free (fuel+1) fuel data pos st (by omega) h

lemma parseDMAux_no_field2 (fuel : Nat) : ∀ (data : List Nat) (pos : Nat) (st : DM),
    (2, 5) ∉ dmTags fuel data pos →
    ∃ sid, parseDMAux fuel data pos st = ⟨sid, st.distanceBits, st.has_distance⟩ := by
  induction fuel with
  | zero => intro data pos st _; exact ⟨st.source_id, rfl⟩
  | succ f ih =>
    intro data pos st h
    by_cases hp : pos < data.length
    · simp only [dmTags] at h
      rw [if_pos hp] at h
      simp only [parseDMAux]
      rw [if_pos hp]
      split_ifs at h ⊢ with h1 h2 h3 h4 h5 h6 h7
      · exact ih data _ _ (fun hm => h (List.mem_cons_of_mem _ hm))
      · exact absurd (by rw [h2.1, h2.2]; exact List.mem_cons_self _ _) h
      · exact absurd (by rw [h2.1, h2.2]; exact List.mem_cons_self _ _) h
      · exact ih data _ _ (fun hm => h (List.mem_cons_of_mem _ hm))
      · exact ih data _ _ (fun hm => h (List.mem_cons_of_mem _ hm))
      · exact ih data _ _ (fun hm => h (List.mem_cons_of_mem _ hm))
      · exact ih data _ _ (fun hm => h (List.mem_cons_of_mem _ hm))
      · exact ⟨st.source_id, rfl⟩
    · simp only [parseDMAux]
      rw [if_neg hp]
      exact ⟨st.source_id, rfl⟩

/-- Claim C7: whenever the DistanceMeasurement loop reads a field-2 tag
with Fixed32 wire type and fewer than four bytes remain after the tag, the
decode completes (it is a total function) and neither distanceBits nor
has_distance is ever set from that field: both keep the values they had
when the tag was read. -/
theorem fixed32_underrun_skipped (data : List Nat) (pos fuel : Nat) (st : DM)
    (hp : pos < data.length)
    (hfn : (decode_varint data pos).1 >>> 3 = 2)
    (hwt : (decode_varint data pos).1 &&& 7 = 5)
    (hshort : data.length < (decode_varint data pos).2 + 4) :
    ∃ sid, parseDMAux (fuel+1) data pos st = ⟨sid, st.distanceBits, st.has_distance⟩ := by
  simp only [parseDMAux]
  rw [if_pos hp]
  rw [if_neg (by simp [hfn])]
  rw [if_pos ⟨hfn, hwt⟩]
  rw [if_neg (by omega)]
  exact parseDMAux_no_room fuel data _ st (by omega)

/-- Witness for C7 at the concrete submessage 15 01: a field-2 Fixed32 tag
followed by a single byte. -/
theorem fixed32_underrun_skipped_witness :
    ∃ sid, parseDMAux 3 [21, 1] 0 ⟨0, 0, false⟩ = ⟨sid, 0, false⟩ :=
  fixed32_underrun_skipped [21, 1] 0 2 ⟨0, 0, false⟩ (by decide) (by decide)
    (by decide) (by decide)

/-- Claim C6: parse_distance_measurement maps field 1 (varint) to
source_id and field 2 (fixed32, little-endian IEEE-754 single precision)
to the distance with has_distance true: the submessage 08 07 15 00 00 50 40
decodes to source_id 7, distance bits 0x40500000 (value 3.25) with
has_distance true; and when no field-2/Fixed32 tag appears in the
submessage, the distance bits stay 0 (value 0.0) and has_distance stays
false. -/
theorem distance_measurement_decode_spec :
    parse_distance_measurement [8, 7, 21, 0, 0, 80, 64] = ⟨7, 1078984704, true⟩ ∧
    f32val 1078984704 = some (13/4 : ℚ) ∧
    ∀ data : List Nat, (2, 5) ∉ dmTags (data.length + 1) data 0 →
      (parse_distance_measurement data).distanceBits = 0 ∧
      (parse_distance_measurement data).has_distance = false := by
  refine ⟨by decide, by unfold f32val; norm_num, ?_⟩
  intro data h
  obtain ⟨sid, hs⟩ := parseDMAux_no_field2 (data.length + 1) data 0 ⟨0, 0, false⟩ h
  unfold parse_distance_measurement
  rw [hs]
  exact ⟨rfl, rfl⟩

/-- Witness for C6 on the submessage 08 07, which contains no
field-2/Fixed32 tag. -/
theorem distance_measurement_decode_spec_witness :
    (parse_distance_measurement [8, 7]).distanceBits = 0 ∧
    (parse_distance_measurement [8, 7]).has_distance = false :=
  distance_measurement_decode_spec.2.2 [8, 7] (by decide)

/-- Claim C8: the classifier of read_ble.py handle_notification maps each
decoded distance record to exactly one of the three classifications:
ZERO_NO_FIELD when the distance compares equal to 0.0 and the field was
absent, ZERO_EXPLICIT when it compares equal to 0.0 and the field was
present, OK otherwise; a submessage with only field 1 = varint(1)
classifies ZERO_NO_FIELD and an explicit fixed32 0.0 classifies
ZERO_EXPLICIT. -/
theorem classify_distance_spec :
    (∀ (bits : Nat) (hd : Bool),
      (classify_distance bits hd = .ZERO_NO_FIELD ↔ f32IsZero bits = true ∧ hd = false) ∧
      (classify_distance bits hd = .ZERO_EXPLICIT ↔ f32IsZero bits = true ∧ hd = true) ∧
      (classify_distance bits hd = .OK ↔ f32IsZero bits = false)) ∧
    parse_distance_measurement [8, 1] = ⟨1, 0, false⟩ ∧
    classify_distance (parse_distance_measurement [8, 1]).distanceBits
      (parse_distance_measurement [8, 1]).has_distance = .ZERO_NO_FIELD ∧
    parse_distance_measurement [21, 0, 0, 0, 0] = ⟨0, 0, true⟩ ∧
    classify_distance (parse_distance_measurement [21, 0, 0, 0, 0]).distanceBits
      (parse_distance_measurement [21, 0, 0, 0, 0]).has_distance = .ZERO_EXPLICIT := by
  refine ⟨?_, by decide, by decide, by decide, by decide⟩
  intro bits hd
  cases hz : f32IsZero bits <;> cases hd <;>
    simp [classify_distance, hz]

/-! ## Lemmas about the top-level event loops -/

lemma parseEventAux_fuel_free (f1 : Nat) : ∀ (f2 : Nat) (data : List Nat) (pos : Nat)
    (et : Option EvType) (dt : Option EvDetails),
    data.length ≤ pos + f1 → data.length ≤ pos + f2 →
    parseEventAux f1 data pos et dt = parseEventAux f2 data pos et dt := by
  induction f1 with
  | zero =>
    intro f2 data pos et dt h1 h2
    cases f2 with
    | zero => rfl
    | succ g2 =>
      simp only [parseEventAux]
      rw [if_neg (by omega)]
  | succ g1 ih =>
    intro f2 data pos et dt h1 h2
    cases f2 with
    | zero =>
      simp only [parseEventAux]
      rw [if_neg (by omega)]
    | succ g2 =>
      by_cases hp : pos < data.length
      · have hlt := decode_varint_lt data pos hp
        have hle2 := decode_varint_le data (decode_varint data pos).2
        simp only [parseEventAux]
        rw [if_pos hp, if_pos hp]
        split_ifs with hc1 hc2 hc3 hc4 hc5 hc6 hc7 hc8 hc9 hc10 hc11
        · rfl
        · exact ih g2 data _ _ _ (by omega) (by omega)
        · exact ih g2 data _ _ _ (by omega) (by omega)
        · exact ih g2 data _ _ _ (by omega) (by omega)
        · exact ih g2 data _ _ _ (by omega) (by omega)
        · exact ih g2 data _ _ _ (by omega) (by omega)
        · exact ih g2 data _ _ _ (by omega) (by omega)
        · exact ih g2 data _ _ _ (by omega) (by omega)
        · exact ih g2 data _ _ _ (by omega) (by omega)
        · exact ih g2 data _ _ _ (by omega) (by omega)
        · exact ih g2 data _ _ _ (by omega) (by omega)
        · rfl
      · simp only [parseEventAux]
        rw [if_neg hp, if_neg hp]

/-- Claim C1, amended to the BLE decoder: whenever read_ble.py parse_event
reads a length-delimited field whose declared length overruns the buffer,
it returns the TRUNCATED event carrying the field number being read, the
declared length, the bytes actually available, and the whole frame, and
stops immediately.  (read_esp.py parse_event performs no such check; see
the counterexample.) -/
theorem ble_truncated_event (data : List Nat) (pos fuel : Nat)
    (et : Option EvType) (dt : Option EvDetails)
    (hp : pos < data.length)
    (hwt : (decode_varint data pos).1 &&& 7 = 2)
    (htr : data.length <
      (decode_varint data (decode_varint data pos).2).2 +
      (decode_varint data (decode_varint data pos).2).1) :
    parseEventAux (fuel+1) data pos et dt =
      (some EvType.TRUNCATED,
       some (EvDetails.truncInfo ((decode_varint data pos).1 >>> 3)
         (decode_varint data (decode_varint data pos).2).1
         (data.length - (decode_varint data (decode_varint data pos).2).2) data)) := by
  simp only [parseEventAux]
  rw [if_pos hp, if_pos hwt, if_pos htr]

/-- Witness for C1: the spec example frame, top-level field 10 declaring
length 20 with only 5 bytes remaining, yields expected=20, available=5. -/
theorem ble_truncated_event_witness :
    parseEventAux 8 [82, 20, 1, 2, 3, 4, 5] 0 none none =
      (some EvType.TRUNCATED,
       some (EvDetails.truncInfo 10 20 5 [82, 20, 1, 2, 3, 4, 5])) :=
  ble_truncated_event [82, 20, 1, 2, 3, 4, 5] 0 7 none none (by decide) (by decide)
    (by decide)

/-- Counterexample for C1 as stated: on the same truncated frame the ESP
decoder read_esp.py parse_event does not return a Truncated result; it
silently clamps the slice and reports a distance event. -/
theorem esp_decoder_no_truncation_check :
    parse_event_esp [82, 20, 1, 2, 3, 4, 5] =
      (some EvType.distance, some (EvDetailsE.distInfoE 0 0 false [1, 2, 3, 4, 5])) ∧
    (some EvType.distance : Option EvType) ≠ some EvType.TRUNCATED :=
  ⟨by decide, by decide⟩

/-- Claim C2: both top-level event decoders are total functions returning
exactly one (event_type, details) value for every input byte string; an
empty frame, and a fully unparseable frame, yield the zero-recognized-
content result (None, None) — the Unknown outcome of the spec's Event
model — rather than no result. -/
theorem event_decoder_exactly_one :
    (∀ data : List Nat, ∃! r : Option EvType × Option EvDetails, parse_event data = r) ∧
    (∀ data : List Nat, ∃! r : Option EvType × Option EvDetailsE, parse_event_esp data = r) ∧
    parse_event [] = (none, none) ∧
    parse_event_esp [] = (none, none) ∧
    parse_event [7, 7, 7] = (none, none) :=
  ⟨fun data => ⟨parse_event data, rfl, fun _ hy => hy.symm⟩,
   fun data => ⟨parse_event_esp data, rfl, fun _ hy => hy.symm⟩,
   rfl, rfl, by decide⟩

lemma parseEventAux_step_field10 (data : List Nat) (pos fuel : Nat)
    (et : Option EvType) (dt : Option EvDetails)
    (hp : pos < data.length)
    (hwt : (decode_varint data pos).1 &&& 7 = 2)
    (hfn : (decode_varint data pos).1 >>> 3 = 10)
    (hok : (decode_varint data (decode_varint data pos).2).2 +
      (decode_varint data (decode_varint data pos).2).1 ≤ data.length) :
    ∃ dt2, parseEventAux (fuel+1) data pos et dt =
      parseEventAux fuel data
        ((decode_varint data (decode_varint data pos).2).2 +
         (decode_varint data (decode_varint data pos).2).1)
        (some EvType.distance) dt2 := by
  simp only [parseEventAux]
  rw [if_pos hp, if_pos hwt, if_neg (by omega), if_pos hfn]
  exact ⟨_, rfl⟩

lemma parseEventAux_step_field12 (data : List Nat) (pos fuel : Nat)
    (et : Option EvType) (dt : Option EvDetails)
    (hp : pos < data.length)
    (hwt : (decode_varint data pos).1 &&& 7 = 2)
    (hfn : (decode_varint data pos).1 >>> 3 = 12)
    (hok : (decode_varint data (decode_varint data pos).2).2 +
      (decode_varint data (decode_varint data pos).2).1 ≤ data.length) :
    parseEventAux (fuel+1) data pos et dt =
      parseEventAux fuel data
        ((decode_varint data (decode_varint data pos).2).2 +
         (decode_varint data (decode_varint data pos).2).1)
        (some EvType.geolocation) dt := by
  simp only [parseEventAux]
  rw [if_pos hp, if_pos hwt, if_neg (by omega),
    if_neg (by rw [hfn]; omega), if_pos hfn]

lemma parseEventAux_step_field13 (data : List Nat) (pos fuel : Nat)
    (et : Option EvType) (dt : Option EvDetails)
    (hp : pos < data.length)
    (hwt : (decode_varint data pos).1 &&& 7 = 2)
    (hfn : (decode_varint data pos).1 >>> 3 = 13)
    (hok : (decode_varint data (decode_varint data pos).2).2 +
      (decode_varint data (decode_varint data pos).2).1 ≤ data.length) :
    parseEventAux (fuel+1) data pos et dt =
      parseEventAux fuel data
        ((decode_varint data (decode_varint data pos).2).2 +
         (decode_varint data (decode_varint data pos).2).1)
        (some EvType.userInput) dt := by
  simp only [parseEventAux]
  rw [if_pos hp, if_pos hwt, if_neg (by omega),
    if_neg (by rw [hfn]; omega), if_neg (by rw [hfn]; omega), if_pos hfn]

lemma parseEventAux_step_field14 (data : List Nat) (pos fuel : Nat)
    (et : Option EvType) (dt : Option EvDetails)
    (hp : pos < data.length)
    (hwt : (decode_varint data pos).1 &&& 7 = 2)
    (hfn : (decode_varint data pos).1 >>> 3 = 14)
    (hok : (decode_varint data (decode_varint data pos).2).2 +
      (decode_varint data (decode_varint data pos).2).1 ≤ data.length) :
    ∃ dt2, parseEventAux (fuel+1) data pos et dt =
      parseEventAux fuel data
        ((decode_varint data (decode_varint data pos).2).2 +
         (decode_varint data (decode_varint data pos).2).1)
        (some EvType.textMessage) dt2 := by
  simp only [parseEventAux]
  rw [if_pos hp, if_pos hwt, if_neg (by omega),
    if_neg (by rw [hfn]; omega), if_neg (by rw [hfn]; omega),
    if_neg (by rw [hfn]; omega), if_pos hfn]
  exact ⟨_, rfl⟩

lemma parseEventAux_keeps_variant (fuel : Nat) : ∀ (data : List Nat) (pos : Nat)
    (v : EvType) (dt : Option EvDetails),
    (evTrace fuel data pos).all stepPreserves = true →
    (parseEventAux fuel data pos (some v) dt).1 = some v := by
  induction fuel with
  | zero => intro data pos v dt _; rfl
  | succ f ih =>
    intro data pos v dt h
    by_cases hp : pos < data.length
    · simp only [evTrace] at h
      rw [if_pos hp] at h
      simp only [parseEventAux]
      rw [if_pos hp]
      split_ifs at h ⊢ with hc1 hc2 hc3 hc4 hc5 hc6 hc7 hc8 hc9 hc10 hc11
      · simp [stepPreserves] at h
      · simp only [List.all_cons, Bool.and_eq_true, stepPreserves, hc1, hc3] at h
        exact absurd h.1 (by decide)
      · simp only [List.all_cons, Bool.and_eq_true, stepPreserves, hc1, hc4] at h
        exact absurd h.1 (by decide)
      · simp only [List.all_cons, Bool.and_eq_true, stepPreserves, hc1, hc5] at h
        exact absurd h.1 (by decide)
      · simp only [List.all_cons, Bool.and_eq_true, stepPreserves, hc1, hc6] at h
        exact absurd h.1 (by decide)
      · simp only [List.all_cons, Bool.and_eq_true] at h
        exact ih data _ v dt h.2
      · exact absurd hc8 (by simp)
      · simp only [List.all_cons, Bool.and_eq_true] at h
        exact ih data _ v dt h.2
      · simp only [List.all_cons, Bool.and_eq_true] at h
        exact ih data _ v dt h.2
      · simp only [List.all_cons, Bool.and_eq_true] at h
        exact ih data _ v dt h.2
      · simp only [List.all_cons, Bool.and_eq_true] at h
        exact ih data _ v dt h.2
      · rfl
    · simp only [parseEventAux]
      rw [if_neg hp]

lemma parseEventAux_step_unknown_none (data : List Nat) (pos fuel : Nat)
    (dt : Option EvDetails)
    (hp : pos < data.length)
    (hwt : (decode_varint data pos).1 &&& 7 = 2)
    (hfn : (decode_varint data pos).1 >>> 3 ∉ ([10, 12, 13, 14, 6] : List Nat))
    (hok : (decode_varint data (decode_varint data pos).2).2 +
      (decode_varint data (decode_varint data pos).2).1 ≤ data.length) :
    parseEventAux (fuel+1) data pos none dt =
      parseEventAux fuel data
        ((decode_varint data (decode_varint data pos).2).2 +
         (decode_varint data (decode_varint data pos).2).1)
        (some (EvType.field_unknown ((decode_varint data pos).1 >>> 3))) dt := by
  simp only [List.mem_cons, List.not_mem_nil, or_false, not_or] at hfn
  obtain ⟨h10, h12, h13, h14, h6⟩ := hfn
  simp only [parseEventAux]
  rw [if_pos hp, if_pos hwt, if_neg (by omega), if_neg h10, if_neg h12,
    if_neg h13, if_neg h14, if_neg h6, if_pos trivial]

lemma parseEventAux_step_unknown_some (data : List Nat) (pos fuel : Nat)
    (v : EvType) (dt : Option EvDetails)
    (hp : pos < data.length)
    (hwt : (decode_varint data pos).1 &&& 7 = 2)
    (hfn : (decode_varint data pos).1 >>> 3 ∉ ([10, 12, 13, 14, 6] : List Nat))
    (hok : (decode_varint data (decode_varint data pos).2).2 +
      (decode_varint data (decode_varint data pos).2).1 ≤ data.length) :
    parseEventAux (fuel+1) data pos (some v) dt =
      parseEventAux fuel data
        ((decode_varint data (decode_varint data pos).2).2 +
         (decode_varint data (decode_varint data pos).2).1)
        (some v) dt := by
  simp only [List.mem_cons, List.not_mem_nil, or_false, not_or] at hfn
  obtain ⟨h10, h12, h13, h14, h6⟩ := hfn
  simp only [parseEventAux]
  rw [if_pos hp, if_pos hwt, if_neg (by omega), if_neg h10, if_neg h12,
    if_neg h13, if_neg h14, if_neg h6, if_neg (by simp)]

/-- Claim C3, amended: the returned variant is determined by the LAST
recognized length-delimited field, not the first.  In any frame, at any
loop position and in any decoder state: a recognized length-delimited
field (10, 12, 13 or 14) whose payload fits the buffer overwrites
event_type with its own variant regardless of the previous value; once
set, the variant survives the remainder of the frame provided no further
recognized field and no truncation occurs (so the last recognized field
wins); the unknown-field fallback label is set only while event_type is
still None and never overwrites an existing value (first-seen-wins for
the fallback only).  Concretely, the frame field-12-then-field-10 decodes
to distance and the frame field-10-then-field-12 to geolocation. -/
theorem last_recognized_field_wins :
    (∀ (data : List Nat) (pos fuel : Nat) (et : Option EvType) (dt : Option EvDetails),
      pos < data.length →
      (decode_varint data pos).1 &&& 7 = 2 →
      (decode_varint data pos).1 >>> 3 = 10 →
      (decode_varint data (decode_varint data pos).2).2 +
        (decode_varint data (decode_varint data pos).2).1 ≤ data.length →
      ∃ dt2, parseEventAux (fuel+1) data pos et dt =
        parseEventAux fuel data
          ((decode_varint data (decode_varint data pos).2).2 +
           (decode_varint data (decode_varint data pos).2).1)
          (some EvType.distance) dt2) ∧
    (∀ (data : List Nat) (pos fuel : Nat) (et : Option EvType) (dt : Option EvDetails),
      pos < data.length →
      (decode_varint data pos).1 &&& 7 = 2 →
      (decode_varint data pos).1 >>> 3 = 12 →
      (decode_varint data (decode_varint data pos).2).2 +
        (decode_varint data (decode_varint data pos).2).1 ≤ data.length →
      parseEventAux (fuel+1) data pos et dt =
        parseEventAux fuel data
          ((decode_varint data (decode_varint data pos).2).2 +
           (decode_varint data (decode_varint data pos).2).1)
          (some EvType.geolocation) dt) ∧
    (∀ (data : List Nat) (pos fuel : Nat) (et : Option EvType) (dt : Option EvDetails),
      pos < data.length →
      (decode_varint data pos).1 &&& 7 = 2 →
      (decode_varint data pos).1 >>> 3 = 13 →
      (decode_varint data (decode_varint data pos).2).2 +
        (decode_varint data (decode_varint data pos).2).1 ≤ data.length →
      parseEventAux (fuel+1) data pos et dt =
        parseEventAux fuel data
          ((decode_varint data (decode_varint data pos).2).2 +
           (decode_varint data (decode_varint data pos).2).1)
          (some EvType.userInput) dt) ∧
    (∀ (data : List Nat) (pos fuel : Nat) (et : Option EvType) (dt : Option EvDetails),
      pos < data.length →
      (decode_varint data pos).1 &&& 7 = 2 →
      (decode_varint data pos).1 >>> 3 = 14 →
      (decode_varint data (decode_varint data pos).2).2 +
        (decode_varint data (decode_varint data pos).2).1 ≤ data.length →
      ∃ dt2, parseEventAux (fuel+1) data pos et dt =
        parseEventAux fuel data
          ((decode_varint data (decode_varint data pos).2).2 +
           (decode_varint data (decode_varint data pos).2).1)
          (some EvType.textMessage) dt2) ∧
    (∀ (fuel : Nat) (data : List Nat) (pos : Nat) (v : EvType) (dt : Option EvDetails),
      (evTrace fuel data pos).all stepPreserves = true →
      (parseEventAux fuel data pos (some v) dt).1 = some v) ∧
    (∀ (data : List Nat) (pos fuel : Nat) (dt : Option EvDetails),
      pos < data.length →
      (decode_varint data pos).1 &&& 7 = 2 →
      (decode_varint data pos).1 >>> 3 ∉ ([10, 12, 13, 14, 6] : List Nat) →
      (decode_varint data (decode_varint data pos).2).2 +
        (decode_varint data (decode_varint data pos).2).1 ≤ data.length →
      parseEventAux (fuel+1) data pos none dt =
        parseEventAux fuel data
          ((decode_varint data (decode_varint data pos).2).2 +
           (decode_varint data (decode_varint data pos).2).1)
          (some (EvType.field_unknown ((decode_varint data pos).1 >>> 3))) dt) ∧
    (∀ (data : List Nat) (pos fuel : Nat) (v : EvType) (dt : Option EvDetails),
      pos < data.length →
      (decode_varint data pos).1 &&& 7 = 2 →
      (decode_varint data pos).1 >>> 3 ∉ ([10, 12, 13, 14, 6] : List Nat) →
      (decode_varint data (decode_varint data pos).2).2 +
        (decode_varint data (decode_varint data pos).2).1 ≤ data.length →
      parseEventAux (fuel+1) data pos (some v) dt =
        parseEventAux fuel data
          ((decode_varint data (decode_varint data pos).2).2 +
           (decode_varint data (decode_varint data pos).2).1)
          (some v) dt) ∧
    (parse_event [98, 0, 82, 0]).1 = some EvType.distance ∧
    (parse_event [82, 0, 98, 0]).1 = some EvType.geolocation :=
  ⟨parseEventAux_step_field10, parseEventAux_step_field12,
   parseEventAux_step_field13, parseEventAux_step_field14,
   parseEventAux_keeps_variant,
   parseEventAux_step_unknown_none, parseEventAux_step_unknown_some,
   by decide, by decide⟩

/-- Witness for C3: the overwrite step on a field-10 record arriving in
the geolocation state, the overwrite step on a field-12 record arriving
in the distance state, variant preservation across a varint skip, and
the fallback label set on an unrecognized field 4. -/
theorem last_recognized_field_wins_witness :
    (∃ dt2, parseEventAux 3 [82, 0] 0 (some EvType.geolocation) none =
      parseEventAux 2 [82, 0] 2 (some EvType.distance) dt2) ∧
    parseEventAux 3 [98, 0] 0 (some EvType.distance) none =
      parseEventAux 2 [98, 0] 2 (some EvType.geolocation) none ∧
    (parseEventAux 1 [8] 0 (some EvType.distance) none).1 = some EvType.distance ∧
    parseEventAux 3 [34, 0] 0 none none =
      parseEventAux 2 [34, 0] 2 (some (EvType.field_unknown 4)) none :=
  ⟨last_recognized_field_wins.1 [82, 0] 0 2 (some EvType.geolocation) none
     (by decide) (by decide) (by decide) (by decide),
   last_recognized_field_wins.2.1 [98, 0] 0 2 (some EvType.distance) none
     (by decide) (by decide) (by decide) (by decide),
   last_recognized_field_wins.2.2.2.2.1 1 [8] 0 EvType.distance none (by decide),
   last_recognized_field_wins.2.2.2.2.2.1 [34, 0] 0 2 none
     (by decide) (by decide) (by decide) (by decide)⟩

/-- Counterexample for C3 as stated: in the frame containing field 12
then field 10 the first recognized field is 12 (geolocation), but the
decoder returns the distance variant of the later field 10. -/
theorem first_recognized_does_not_win :
    (parse_event [98, 0, 82, 0]).1 = some EvType.distance ∧
    EvType.distance ≠ EvType.geolocation :=
  ⟨by decide, by decide⟩

/-! ## COBS round-trip lemmas -/

lemma copyLiterals_spec (lits : List Nat) : ∀ (pre rest out : List Nat),
    copyLiterals (pre ++ lits ++ rest) pre.length lits.length out =
      some (pre.length + lits.length, out ++ lits) := by
  induction lits with
  | nil => intro pre rest out; simp [copyLiterals]
  | cons a t ih =>
    intro pre rest out
    rw [show pre ++ (a :: t) ++ rest = pre ++ a :: (t ++ rest) by simp]
    simp only [copyLiterals, List.length_cons]
    rw [if_pos (by simp)]
    rw [getD_append_cons]
    calc copyLiterals (pre ++ a :: (t ++ rest)) (pre.length + 1) t.length (out ++ [a])
        = copyLiterals ((pre ++ [a]) ++ t ++ rest) ((pre ++ [a]).length) t.length
            (out ++ [a]) := by simp
      _ = some ((pre ++ [a]).length + t.length, (out ++ [a]) ++ t) :=
            ih (pre ++ [a]) rest (out ++ [a])
      _ = some (pre.length + (t.length + 1), out ++ a :: t) := by
            simp
            omega

lemma cobsDecodeAux_at_end (fuel : Nat) (data : List Nat) (i : Nat) (out : List Nat)
    (h : data.length ≤ i) : cobsDecodeAux fuel data i out = some out := by
  cases fuel with
  | zero => rfl
  | succ f =>
    simp only [cobsDecodeAux]
    rw [if_neg (by omega)]

lemma cobsEncGo_ne_nil (p : List Nat) : ∀ block : List Nat, cobsEncGo block p ≠ [] := by
  induction p with
  | nil => intro block; simp [cobsEncGo]
  | cons b r ih =>
    intro block
    simp only [cobsEncGo]
    split_ifs with h1 h2 h3
    · simp
    · simp
    · simp
    · exact ih (block ++ [b])

lemma cobsEncGo_length (p : List Nat) : ∀ block : List Nat,
    block.length + p.length + 1 ≤ (cobsEncGo block p).length := by
  induction p with
  | nil => intro block; simp [cobsEncGo]
  | cons b r ih =>
    intro block
    simp only [cobsEncGo]
    split_ifs with h1 h2 h3
    · have h4 := ih []
      simp only [List.length_append, List.length_cons, List.length_nil] at *
      omega
    · subst h3
      simp only [List.length_cons, List.length_append, List.length_nil, h2]
      omega
    · have h4 := ih []
      simp only [List.length_append, List.length_cons, List.length_nil, h2] at *
      omega
    · have h4 := ih (block ++ [b])
      simp only [List.length_append, List.length_cons, List.length_nil] at *
      omega

lemma cobsDecodeAux_encGo (p : List Nat) : ∀ (block pre out : List Nat) (fuel : Nat),
    block.length ≤ 253 → p.length + 1 ≤ fuel →
    cobsDecodeAux fuel (pre ++ cobsEncGo block p) pre.length out =
      some (out ++ block ++ p) := by
  induction p with
  | nil =>
    intro block pre out fuel hb hf
    obtain ⟨f, rfl⟩ : ∃ f, fuel = f + 1 := ⟨fuel - 1, by omega⟩
    simp only [cobsEncGo, cobsDecodeAux]
    rw [if_pos (by simp only [List.length_append, List.length_cons]; omega)]
    rw [getD_append_cons]
    rw [if_neg (by omega), Nat.add_sub_cancel]
    have hcl := copyLiterals_spec block (pre ++ [block.length + 1]) [] out
    rw [show (pre ++ [block.length + 1]) ++ block ++ ([] : List Nat)
          = pre ++ (block.length + 1) :: block by simp,
        show (pre ++ [block.length + 1]).length = pre.length + 1 by simp] at hcl
    rw [hcl]
    dsimp only
    rw [if_neg (by simp only [List.length_append, List.length_cons]; omega)]
    rw [cobsDecodeAux_at_end f _ _ _
      (by simp only [List.length_append, List.length_cons]; omega)]
    simp
  | cons b r ih =>
    intro block pre out fuel hb hf
    obtain ⟨f, rfl⟩ : ∃ f, fuel = f + 1 := ⟨fuel - 1, by omega⟩
    simp only [cobsEncGo]
    split_ifs with h1 h2 h3
    · subst h1
      have hpos : 0 < (cobsEncGo [] r).length :=
        List.length_pos.mpr (cobsEncGo_ne_nil r [])
      rw [show pre ++ (((block.length + 1) :: block) ++ cobsEncGo [] r)
            = pre ++ (block.length + 1) :: (block ++ cobsEncGo [] r) by simp]
      simp only [cobsDecodeAux]
      rw [if_pos (by simp only [List.length_append, List.length_cons]; omega)]
      rw [getD_append_cons]
      rw [if_neg (by omega), Nat.add_sub_cancel]
      have hcl := copyLiterals_spec block (pre ++ [block.length + 1]) (cobsEncGo [] r) out
      rw [show (pre ++ [block.length + 1]) ++ block ++ cobsEncGo [] r
            = pre ++ (block.length + 1) :: (block ++ cobsEncGo [] r) by simp,
          show (pre ++ [block.length + 1]).length = pre.length + 1 by simp] at hcl
      rw [hcl]
      dsimp only
      have hcond : block.length + 1 < 255 ∧ pre.length + 1 + block.length <
          (pre ++ (block.length + 1) :: (block ++ cobsEncGo [] r)).length :=
        ⟨by omega, by simp only [List.length_append, List.length_cons]; omega⟩
      rw [if_pos hcond]
      have hih := ih [] (pre ++ (block.length + 1) :: block) (out ++ block ++ [0]) f
        (by simp) (by simp only [List.length_cons] at hf; omega)
      rw [show (pre ++ (block.length + 1) :: block) ++ cobsEncGo [] r
            = pre ++ (block.length + 1) :: (block ++ cobsEncGo [] r) by simp,
          show (pre ++ (block.length + 1) :: block).length = pre.length + 1 + block.length
            by simp only [List.length_append, List.length_cons]; omega] at hih
      rw [hih]
      simp
    · subst h3
      rw [show pre ++ ((255 :: (block ++ [b])) ++ ([] : List Nat))
            = pre ++ 255 :: (block ++ [b]) by simp]
      simp only [cobsDecodeAux]
      rw [if_pos (by simp only [List.length_append, List.length_cons]; omega)]
      rw [getD_append_cons]
      rw [if_neg (by omega)]
      rw [show (255 : Nat) - 1 = block.length + 1 by omega]
      have hcl := copyLiterals_spec (block ++ [b]) (pre ++ [255]) [] out
      simp only [List.append_assoc, List.singleton_append, List.append_nil,
        List.nil_append, List.cons_append, List.length_append,
        List.length_singleton, List.length_nil] at hcl
      rw [hcl]
      dsimp only
      rw [if_neg (by omega)]
      rw [cobsDecodeAux_at_end f _ _ _
        (by simp only [List.length_append, List.length_cons, List.length_singleton,
          List.length_nil]; omega)]
      simp
    · have hpos : 0 < (cobsEncGo [] r).length :=
        List.length_pos.mpr (cobsEncGo_ne_nil r [])
      rw [show pre ++ ((255 :: (block ++ [b])) ++ cobsEncGo [] r)
            = pre ++ 255 :: (block ++ b :: cobsEncGo [] r) by simp]
      simp only [cobsDecodeAux]
      rw [if_pos (by simp only [List.length_append, List.length_cons]; omega)]
      rw [getD_append_cons]
      rw [if_neg (by omega)]
      rw [show (255 : Nat) - 1 = block.length + 1 by omega]
      have hcl := copyLiterals_spec (block ++ [b]) (pre ++ [255]) (cobsEncGo [] r) out
      simp only [List.append_assoc, List.singleton_append, List.append_nil,
        List.nil_append, List.cons_append, List.length_append,
        List.length_singleton, List.length_nil] at hcl
      rw [hcl]
      dsimp only
      rw [if_neg (by omega)]
      have hih := ih [] (pre ++ 255 :: (block ++ [b])) (out ++ (block ++ [b])) f
        (by simp) (by simp only [List.length_cons] at hf; omega)
      simp only [List.append_assoc, List.singleton_append, List.append_nil,
        List.nil_append, List.cons_append, List.length_append,
        List.length_singleton, List.length_cons, List.length_nil] at hih
      rw [show pre.length + 1 + (block.length + 1)
            = pre.length + (block.length + 1 + 1) by omega]
      rw [hih]
      simp
    · have hih := ih (block ++ [b]) pre out (f + 1)
        (by simp only [List.length_append, List.length_cons, List.length_nil]; omega)
        (by simp only [List.length_cons] at hf; omega)
      rw [hih]
      simp

lemma cobsEncode_roundtrip_core (p : List Nat) :
    cobsDecodeAux (cobsEncode p).length (cobsEncode p) 0 [] = some p := by
  have h := cobsDecodeAux_encGo p [] [] [] (cobsEncode p).length (by simp)
    (by have h2 := cobsEncGo_length p []; simpa [cobsEncode] using h2)
  simpa [cobsEncode] using h

/-- Claim C4, amended: decoding the standard COBS encoding reproduces the
payload exactly for every payload that is empty or whose last byte is
nonzero (interior zero bytes included); a payload whose last byte is 0x00
is NOT reproduced, because cobs_decode strips one trailing zero from its
output (see the counterexample). -/
theorem cobs_roundtrip_no_trailing_zero (p : List Nat) (h : p.getLast? ≠ some 0) :
    cobs_decode (cobsEncode p) = some p := by
  unfold cobs_decode
  rw [cobsEncode_roundtrip_core p]
  dsimp only
  rw [if_neg h]

/-- Witness for C4 on a payload with an interior zero byte. -/
theorem cobs_roundtrip_no_trailing_zero_witness :
    cobs_decode (cobsEncode [1, 0, 2]) = some [1, 0, 2] :=
  cobs_roundtrip_no_trailing_zero [1, 0, 2] (by decide)

/-- Counterexample for C4 as stated: for the payload consisting of the
single byte 0x00, cobs_decode of its standard COBS encoding returns the
empty byte string, not the payload: the trailing-zero strip removes the
reconstructed final zero. -/
theorem cobs_roundtrip_fails_trailing_zero :
    cobs_decode (cobsEncode [0]) = some [] ∧ some ([] : List Nat) ≠ some [0] :=
  ⟨by decide, by decide⟩

/-- Claim C9: a zero-length frame (empty span before the next zero-byte
delimiter) is discarded by the deframing loop of read_esp.py main before
COBS decoding and yields no decoded event of any kind, while the frame
span and the delimiter byte are both consumed from the buffer. -/
theorem empty_frame_discarded :
    (∀ rest : List Nat, deframe_loop (0 :: rest) = deframe_loop rest) ∧
    processFrame [] = none := by
  refine ⟨?_, rfl⟩
  intro rest
  unfold deframe_loop
  have hidx : (0 :: rest).indexOf 0 = 0 := List.indexOf_cons_self 0 rest
  simp only [List.length_cons, deframeEvents, hidx]
  rw [if_pos (List.mem_cons_self 0 rest)]
  simp [processFrame]

/-- Claim C10: the decoding loops terminate because the read position
strictly advances.  decode_varint consumes at least one byte whenever the
position is inside the buffer and never moves backwards, and in
consequence both field loops reach a fixed point once the fuel covers the
remaining bytes: one more fuel unit than the remaining byte count never
changes the result, which is the fuel-embedding statement that the Python
while-loops exit after finitely many iterations. -/
theorem decoding_progress_terminates :
    (∀ (data : List Nat) (pos : Nat), pos < data.length →
      pos < (decode_varint data pos).2) ∧
    (∀ (data : List Nat) (pos : Nat), pos ≤ (decode_varint data pos).2) ∧
    (∀ (fuel : Nat) (data : List Nat) (pos : Nat) (st : DM),
      data.length ≤ pos + fuel →
      parseDMAux (fuel+1) data pos st = parseDMAux fuel data pos st) ∧
    (∀ (fuel : Nat) (data : List Nat) (pos : Nat) (et : Option EvType)
      (dt : Option EvDetails), data.length ≤ pos + fuel →
      parseEventAux (fuel+1) data pos et dt = parseEventAux fuel data pos et dt) :=
  ⟨decode_varint_lt, decode_varint_le, parseDMAux_fuel,
   fun fuel data pos et dt h =>
     parseEventAux_fuel_free (fuel+1) fuel data pos et dt (by omega) h⟩

/-- Witness for C10 at concrete inputs. -/
theorem decoding_progress_terminates_witness :
    0 < (decode_varint [8] 0).2 ∧ 0 ≤ (decode_varint [] 0).2 ∧
    parseDMAux 3 [8, 7] 0 ⟨0, 0, false⟩ = parseDMAux 2 [8, 7] 0 ⟨0, 0, false⟩ ∧
    parseEventAux 3 [98, 0] 0 none none = parseEventAux 2 [98, 0] 0 none none :=
  ⟨decoding_progress_terminates.1 [8] 0 (by decide),
   decoding_progress_terminates.2.1 [] 0,
   decoding_progress_terminates.2.2.1 2 [8, 7] 0 ⟨0, 0, false⟩ (by decide),
   decoding_progress_terminates.2.2.2 2 [98, 0] 0 none none (by decide)⟩
